import Mathlib

/-!
Verification of the alternating-disks program (`src/disks.hpp`).

The row of disks is embedded as a `List disk_color` (the `_colors` vector of
the C++ `disk_state` class); each member function of `disk_state` and the two
free sorting functions are translated below.  C++ `for` loops whose bounds do
not change while the loop runs are compiled to folds over the list of index
values the loop visits; the two loops of `sort_lawnmower` whose counter `i`
is mutated inside the loop body are compiled to well-founded recursion on the
same counters.  `assert` is modelled by returning `Option`: a failed
precondition assertion produces `none` (no result).  `disk_state::get`
asserts its index is in range and the executions reasoned about below only
read in-range indices; the embedding totalizes it with a default value.
-/

-- enum disk_color { DISK_LIGHT, DISK_DARK };
inductive disk_color : Type
  | DISK_LIGHT : disk_color
  | DISK_DARK : disk_color
deriving DecidableEq, Repr

open disk_color

/-- The `_colors` vector of a `disk_state`. -/
abbrev disk_state := List disk_color

-- size_t total_count() const { return _colors.size(); }
def disk_state.total_count (s : disk_state) : Nat := s.length

-- size_t dark_count() const { return total_count() / 2; }
def disk_state.dark_count (s : disk_state) : Nat := disk_state.total_count s / 2

-- size_t light_count() const { return dark_count(); }
def disk_state.light_count (s : disk_state) : Nat := disk_state.dark_count s

-- bool is_index(size_t i) const { return (i < total_count()); }
def disk_state.is_index (s : disk_state) (i : Nat) : Bool :=
  i < disk_state.total_count s

-- disk_color get(size_t index) const; asserts is_index(index).
-- All reads performed by the functions below on the inputs reasoned about
-- are in range; out-of-range reads are totalized with DISK_LIGHT.
def disk_state.get (s : disk_state) (index : Nat) : disk_color :=
  s.getD index DISK_LIGHT

-- void swap(size_t left_index): std::swap(_colors[left], _colors[left+1]).
def disk_state.swap (s : disk_state) (left_index : Nat) : disk_state :=
  (s.set left_index (disk_state.get s (left_index + 1))).set (left_index + 1)
    (disk_state.get s left_index)

-- disk_state(size_t light_count): a vector of light_count * 2 entries, all
-- DISK_LIGHT, then every odd index overwritten with DISK_DARK; asserts
-- dark_count() > 0, i.e. light_count >= 1, modelled as a hypothesis where
-- it matters.
def disk_state.init (light_count : Nat) : disk_state :=
  (List.range (light_count * 2)).map fun i =>
    if i % 2 = 1 then DISK_DARK else DISK_LIGHT

-- bool operator== (const disk_state& rhs) const {
--   return std::equal(_colors.begin(), _colors.end(), rhs._colors.begin()); }
-- std::equal with three iterators compares the left sequence against the
-- first `_colors.size()` elements of the right sequence; it never looks at
-- the lengths.  (When rhs is strictly shorter the C++ call reads past the
-- end of rhs: undefined behavior; the embedding then yields false.)
def disk_state.eqOp (s rhs : disk_state) : Bool :=
  decide (s = List.take (s.length) rhs)

-- std::string to_string() const: one character per disk, "L" or "D",
-- separated by single spaces.
def disk_state.to_string (s : disk_state) : String :=
  String.intercalate " " (s.map fun c => if c = DISK_LIGHT then "L" else "D")

-- bool is_alternating() const:
--   for (size_t i = 0; i < size - 1; i += 2)
--     if (get(i) != DISK_LIGHT || get(i + 1) != DISK_DARK) return false;
--   return true;
-- The loop visits i = 0, 2, 4, ... while i < size - 1: for size >= 1 that is
-- exactly size / 2 index values.  (For size == 0 the C++ `size - 1` wraps
-- around; a disk_state is never empty: the constructor asserts
-- dark_count() > 0.)
def disk_state.is_alternating (s : disk_state) : Bool :=
  (List.range' 0 (s.length / 2) 2).all fun i =>
    (disk_state.get s i == DISK_LIGHT) && (disk_state.get s (i + 1) == DISK_DARK)

-- bool is_sorted() const:
--   for (size_t i = 0; i < lightSize; i++) {
--     if (get(i) != DISK_LIGHT) return false;
--     if (get(i + lightSize) != DISK_DARK) return false; }
def disk_state.is_sorted (s : disk_state) : Bool :=
  (List.range (disk_state.light_count s)).all fun i =>
    (disk_state.get s i == DISK_LIGHT) &&
      (disk_state.get s (i + disk_state.light_count s) == DISK_DARK)

-- class sorted_disks { disk_state _after; unsigned _swap_count; ... }
structure sorted_disks : Type where
  _after : disk_state
  _swap_count : Nat
deriving DecidableEq, Repr

def sorted_disks.after (r : sorted_disks) : disk_state := r._after

def sorted_disks.swap_count (r : sorted_disks) : Nat := r._swap_count

/-!  The sorting algorithms.  The loop state is the pair
(current row, swap count so far); the row component models the caller's
`before` object, which both sorters mutate in place through `const_cast`. -/

-- The conditional swap both sorters perform while scanning to the right:
--   if (before.get(j) == DISK_DARK && before.get(j + 1) == DISK_LIGHT) {
--     const_cast<disk_state&>(before).swap(j); swapCount++; }
def fwStep (sc : disk_state × Nat) (j : Nat) : disk_state × Nat :=
  if disk_state.get sc.1 j = DISK_DARK ∧ disk_state.get sc.1 (j + 1) = DISK_LIGHT
  then (disk_state.swap sc.1 j, sc.2 + 1)
  else sc

-- One pass of sort_left_to_right:
--   for (auto j = i + 1; j < totalCount - i - 1; j++) { ...fwStep... }
-- The loop visits j = i+1, ..., totalCount-i-2.
def ltrPass (totalCount i : Nat) (sc : disk_state × Nat) : disk_state × Nat :=
  (List.range' (i + 1) (totalCount - i - 1 - (i + 1))).foldl fwStep sc

-- for (size_t i = 0; i < lightCount; i++) { ...one ltrPass... }
def ltrOuter (lightCount totalCount : Nat) (sc : disk_state × Nat) :
    disk_state × Nat :=
  (List.range lightCount).foldl (fun sc' i => ltrPass totalCount i sc') sc

-- sorted_disks sort_left_to_right(const disk_state& before):
--   assert(before.is_alternating()); then the nested loops above; finally
--   return sorted_disks(before, swapCount).
def sort_left_to_right (before : disk_state) : Option sorted_disks :=
  if disk_state.is_alternating before = true then
    some ⟨(ltrOuter (disk_state.light_count before)
             (disk_state.total_count before) (before, 0)).1,
          (ltrOuter (disk_state.light_count before)
             (disk_state.total_count before) (before, 0)).2⟩
  else none

-- The conditional swap of the right-to-left scan of sort_lawnmower:
--   if (before.get(j) == DISK_LIGHT && before.get(j - 1) == DISK_DARK) {
--     const_cast<disk_state&>(before).swap(j - 1); swapCount++; }
def bwStep (sc : disk_state × Nat) (j : Nat) : disk_state × Nat :=
  if disk_state.get sc.1 j = DISK_LIGHT ∧ disk_state.get sc.1 (j - 1) = DISK_DARK
  then (disk_state.swap sc.1 (j - 1), sc.2 + 1)
  else sc

-- The right-to-left scan:
--   for (auto j = totalCount - i - 1; j > i; j--) { ...bwStep... }
-- It visits j = totalCount-i-1, totalCount-i-2, ..., i+1, in that order.
def backSweep (i totalCount : Nat) (sc : disk_state × Nat) : disk_state × Nat :=
  ((List.range' (i + 1) (totalCount - i - 1 - i)).reverse).foldl bwStep sc

-- The forward loop of sort_lawnmower.  In the source the brace after the
-- conditional swap closes the `if`, not the `for`: the statements `i++` and
-- the whole right-to-left scan are part of the body of
--   for (auto j = i + 1; j < totalCount - i; j++)
-- so `i` grows by one and a full right-to-left scan runs on every step of
-- this loop, and the loop condition re-reads the updated `i`.
def fwdLoop (totalCount i j : Nat) (sc : disk_state × Nat) :
    Nat × disk_state × Nat :=
  if j < totalCount - i then
    fwdLoop totalCount (i + 1) (j + 1)
      (backSweep (i + 1) totalCount (fwStep sc j))
  else (i, sc)
termination_by totalCount - i - j
decreasing_by omega

theorem fwdLoop_fst_ge (totalCount i j : Nat) (sc : disk_state × Nat) :
    i ≤ (fwdLoop totalCount i j sc).1 := by
  rw [fwdLoop]
  split
  · exact Nat.le_trans (Nat.le_succ i)
      (fwdLoop_fst_ge totalCount (i + 1) (j + 1) _)
  · exact Nat.le_refl i
termination_by totalCount - i - j
decreasing_by omega

-- for (size_t i = 0; i < lightCount / 2; i++) { ...fwdLoop...; }
-- (the `i++` of this header runs after the forward loop has already pushed
-- `i` up; the outer condition is then re-checked).
def lawnOuter (lightCount totalCount i : Nat) (sc : disk_state × Nat) :
    disk_state × Nat :=
  if i < lightCount / 2 then
    lawnOuter lightCount totalCount
      ((fwdLoop totalCount i (i + 1) sc).1 + 1)
      (fwdLoop totalCount i (i + 1) sc).2
  else sc
termination_by lightCount / 2 - i
decreasing_by
  have h := fwdLoop_fst_ge totalCount i (i + 1) sc
  omega

-- sorted_disks sort_lawnmower(const disk_state& before):
--   assert(before.is_alternating()); the loops above; then
--   return sorted_disks(before, swapCount).
def sort_lawnmower (before : disk_state) : Option sorted_disks :=
  if disk_state.is_alternating before = true then
    some ⟨(lawnOuter (disk_state.light_count before)
             (disk_state.total_count before) 0 (before, 0)).1,
          (lawnOuter (disk_state.light_count before)
             (disk_state.total_count before) 0 (before, 0)).2⟩
  else none

/-- Modelled from the spec, section 4.3 (the reference step structure named
by claim C2; it is not the code's structure): each outer iteration, taken
while `i < color_count()/2`, first completes one whole forward sweep
(scanning `j` upward from `i+1`, swapping each adjacent (dark,light) pair at
`(j, j+1)`), then advances the shrink counter `i` by one, then completes one
whole backward sweep (scanning `j` downward from `total_count()-i-1` to
`i+1`, swapping each (dark,light) pair at `(j-1, j)`), and the loop header
advances `i` once more. -/
def refOuter (lightCount totalCount : Nat) (sc : disk_state × Nat) :
    disk_state × Nat :=
  (List.range' 0 ((lightCount / 2 + 1) / 2) 2).foldl
    (fun sc' i => backSweep (i + 1) totalCount (ltrPass totalCount i sc')) sc

/-- Modelled from the spec, section 4.3: the reference lawnmower sorter that
claim C2 asserts `sort_lawnmower` equals; same precondition wrapper as the
code's sorters.  The outer counter deterministically takes the values
0, 2, 4, ... while below `color_count()/2`, so the loop is compiled to a
fold over that index list. -/
def lawnmower_ref (before : disk_state) : Option sorted_disks :=
  if disk_state.is_alternating before = true then
    some ⟨(refOuter (disk_state.light_count before)
             (disk_state.total_count before) (before, 0)).1,
          (refOuter (disk_state.light_count before)
             (disk_state.total_count before) (before, 0)).2⟩
  else none

/-! ### Instrumented sorters for the swap-trace claim

Each sorter is mirrored by a version that also records, for every swap
performed, the row state just before the swap together with the left index
of the swapped pair.  The recursions are identical to the sorters above;
the projections back onto (row, swap count) are proved to agree with them. -/

def fwStepT (st : disk_state × Nat × List (disk_state × Nat)) (j : Nat) :
    disk_state × Nat × List (disk_state × Nat) :=
  if disk_state.get st.1 j = DISK_DARK ∧ disk_state.get st.1 (j + 1) = DISK_LIGHT
  then (disk_state.swap st.1 j, st.2.1 + 1, (st.1, j) :: st.2.2)
  else st

def bwStepT (st : disk_state × Nat × List (disk_state × Nat)) (j : Nat) :
    disk_state × Nat × List (disk_state × Nat) :=
  if disk_state.get st.1 j = DISK_LIGHT ∧ disk_state.get st.1 (j - 1) = DISK_DARK
  then (disk_state.swap st.1 (j - 1), st.2.1 + 1, (st.1, j - 1) :: st.2.2)
  else st

def ltrPassT (totalCount i : Nat) (st : disk_state × Nat × List (disk_state × Nat)) :
    disk_state × Nat × List (disk_state × Nat) :=
  (List.range' (i + 1) (totalCount - i - 1 - (i + 1))).foldl fwStepT st

def ltrOuterT (lightCount totalCount : Nat)
    (st : disk_state × Nat × List (disk_state × Nat)) :
    disk_state × Nat × List (disk_state × Nat) :=
  (List.range lightCount).foldl (fun st' i => ltrPassT totalCount i st') st

def sort_left_to_right_traced (before : disk_state) :
    Option sorted_disks × List (disk_state × Nat) :=
  if disk_state.is_alternating before = true then
    (some ⟨(ltrOuterT (disk_state.light_count before)
              (disk_state.total_count before) (before, 0, [])).1,
           (ltrOuterT (disk_state.light_count before)
              (disk_state.total_count before) (before, 0, [])).2.1⟩,
     (ltrOuterT (disk_state.light_count before)
        (disk_state.total_count before) (before, 0, [])).2.2)
  else (none, [])

def backSweepT (i totalCount : Nat)
    (st : disk_state × Nat × List (disk_state × Nat)) :
    disk_state × Nat × List (disk_state × Nat) :=
  ((List.range' (i + 1) (totalCount - i - 1 - i)).reverse).foldl bwStepT st

def fwdLoopT (totalCount i j : Nat)
    (st : disk_state × Nat × List (disk_state × Nat)) :
    Nat × disk_state × Nat × List (disk_state × Nat) :=
  if j < totalCount - i then
    fwdLoopT totalCount (i + 1) (j + 1)
      (backSweepT (i + 1) totalCount (fwStepT st j))
  else (i, st)
termination_by totalCount - i - j
decreasing_by omega

theorem fwdLoopT_fst_ge (totalCount i j : Nat)
    (st : disk_state × Nat × List (disk_state × Nat)) :
    i ≤ (fwdLoopT totalCount i j st).1 := by
  rw [fwdLoopT]
  split
  · exact Nat.le_trans (Nat.le_succ i)
      (fwdLoopT_fst_ge totalCount (i + 1) (j + 1) _)
  · exact Nat.le_refl i
termination_by totalCount - i - j
decreasing_by omega

def lawnOuterT (lightCount totalCount i : Nat)
    (st : disk_state × Nat × List (disk_state × Nat)) :
    disk_state × Nat × List (disk_state × Nat) :=
  if i < lightCount / 2 then
    lawnOuterT lightCount totalCount
      ((fwdLoopT totalCount i (i + 1) st).1 + 1)
      (fwdLoopT totalCount i (i + 1) st).2
  else st
termination_by lightCount / 2 - i
decreasing_by
  have h := fwdLoopT_fst_ge totalCount i (i + 1) st
  omega

def sort_lawnmower_traced (before : disk_state) :
    Option sorted_disks × List (disk_state × Nat) :=
  if disk_state.is_alternating before = true then
    (some ⟨(lawnOuterT (disk_state.light_count before)
              (disk_state.total_count before) 0 (before, 0, [])).1,
           (lawnOuterT (disk_state.light_count before)
              (disk_state.total_count before) 0 (before, 0, [])).2.1⟩,
     (lawnOuterT (disk_state.light_count before)
        (disk_state.total_count before) 0 (before, 0, [])).2.2)
  else (none, [])

/-- Projection of an instrumented state back onto (row, swap count). -/
def projT (st : disk_state × Nat × List (disk_state × Nat)) : disk_state × Nat :=
  (st.1, st.2.1)

/-- Every recorded swap is of an adjacent (dark, light) pair, read off the
row state just before that swap. -/
def DLok (tr : List (disk_state × Nat)) : Prop :=
  ∀ p ∈ tr, disk_state.get p.1 p.2 = DISK_DARK ∧
    disk_state.get p.1 (p.2 + 1) = DISK_LIGHT

/-- The partial sums `2 + 3 + ... + (s + 2)` collected by the remaining
forward steps. -/
def pcount : Nat → Nat
  | 0 => 2
  | s + 1 => (s + 3) + pcount s

/-! ### Building blocks for the correctness proofs -/

/-- The block (light, dark) repeated `r` times; `LDb k` is the alternating
row of `2k` disks the constructor builds. -/
def LDb : Nat → disk_state
  | 0 => []
  | r + 1 => DISK_LIGHT :: DISK_DARK :: LDb r

/-- The block (dark, light) repeated `r` times. -/
def DLb : Nat → disk_state
  | 0 => []
  | r + 1 => DISK_DARK :: DISK_LIGHT :: DLb r

/-- The `n`-th triangular number; both sorters perform `tri (k - 1)` swaps
on the alternating row of `2k` disks. -/
def tri : Nat → Nat
  | 0 => 0
  | n + 1 => (n + 1) + tri n

@[simp] theorem LDb_length (r : Nat) : (LDb r).length = 2 * r := by
  induction r with
  | zero => rfl
  | succ r ih => simp [LDb, ih]; omega

@[simp] theorem DLb_length (r : Nat) : (DLb r).length = 2 * r := by
  induction r with
  | zero => rfl
  | succ r ih => simp [DLb, ih]; omega

theorem LDb_succ_concat (r : Nat) :
    LDb (r + 1) = LDb r ++ [DISK_LIGHT, DISK_DARK] := by
  induction r with
  | zero => rfl
  | succ r ih =>
    calc LDb (r + 1 + 1)
        = DISK_LIGHT :: DISK_DARK :: LDb (r + 1) := rfl
      _ = DISK_LIGHT :: DISK_DARK :: (LDb r ++ [DISK_LIGHT, DISK_DARK]) := by
          rw [ih]
      _ = (DISK_LIGHT :: DISK_DARK :: LDb r) ++ [DISK_LIGHT, DISK_DARK] := by
          simp
      _ = LDb (r + 1) ++ [DISK_LIGHT, DISK_DARK] := rfl

theorem LDb_succ_split (r : Nat) :
    LDb (r + 1) = DISK_LIGHT :: (DLb r ++ [DISK_DARK]) := by
  induction r with
  | zero => rfl
  | succ r ih =>
    rw [LDb, ih, DLb]
    simp

/-- The constructor's row is the alternating block. -/
theorem init_eq_LDb (k : Nat) : disk_state.init k = LDb k := by
  induction k with
  | zero => rfl
  | succ k ih =>
    have h2 : (k + 1) * 2 = k * 2 + 1 + 1 := by ring
    rw [disk_state.init, h2, List.range_succ, List.range_succ, List.map_append,
        List.map_append, ← disk_state.init, ih, LDb_succ_concat]
    have he : (k * 2) % 2 = 0 := by omega
    have ho : (k * 2 + 1) % 2 = 1 := by omega
    simp [he, ho]

/-! Reading and swapping at a position described by an append split. -/

theorem get_append_len (pre post : List disk_color) (x : disk_color) :
    disk_state.get (pre ++ x :: post) pre.length = x := by
  rw [disk_state.get, List.getD_append_right _ _ _ _ (Nat.le_refl _)]
  simp

theorem get_append_add (pre post : List disk_color) (n : Nat) :
    disk_state.get (pre ++ post) (pre.length + n) = disk_state.get post n := by
  rw [disk_state.get, disk_state.get,
      List.getD_append_right _ _ _ _ (Nat.le_add_right _ _)]
  simp

theorem get_append_lt (pre post : List disk_color) (n : Nat)
    (h : n < pre.length) :
    disk_state.get (pre ++ post) n = disk_state.get pre n := by
  rw [disk_state.get, disk_state.get, List.getD_append _ _ _ _ h]

theorem set_append_len (pre post : List disk_color) (x a : disk_color) :
    (pre ++ x :: post).set pre.length a = pre ++ a :: post := by
  rw [List.set_append]
  simp

theorem swap_append (pre post : List disk_color) (x y : disk_color) :
    disk_state.swap (pre ++ x :: y :: post) pre.length = pre ++ y :: x :: post := by
  have hx : disk_state.get (pre ++ x :: y :: post) pre.length = x :=
    get_append_len pre (y :: post) x
  have hy : disk_state.get (pre ++ x :: y :: post) (pre.length + 1) = y := by
    have := get_append_add pre (x :: y :: post) 1
    simpa [disk_state.get] using this
  rw [disk_state.swap, hx, hy, set_append_len pre (y :: post) x y]
  have hlen : pre.length + 1 = (pre ++ [y]).length := by simp
  calc (pre ++ y :: y :: post).set (pre.length + 1) x
      = ((pre ++ [y]) ++ y :: post).set ((pre ++ [y]).length) x := by
        rw [← hlen]; simp
    _ = (pre ++ [y]) ++ x :: post := set_append_len (pre ++ [y]) post y x
    _ = pre ++ y :: x :: post := by simp

theorem get_replicate (m i : Nat) (a : disk_color) (h : i < m) :
    disk_state.get (List.replicate m a) i = a := by
  induction m generalizing i with
  | zero => omega
  | succ m ih =>
    cases i with
    | zero => simp [disk_state.get, List.replicate_succ]
    | succ i =>
      rw [List.replicate_succ]
      have := ih i (by omega)
      simpa [disk_state.get] using this

/-! ### Correctness of sort_left_to_right on alternating rows

One pass of the left-to-right scan over a window holding `(DL)^r`, followed
by a dark disk, rewrites the window to `(LD)^r` and performs `r` swaps. -/

theorem ltr_scan (r : Nat) :
    ∀ (pre post : List disk_color) (c : Nat),
      (List.range' pre.length (2 * r)).foldl fwStep
          (pre ++ (DLb r ++ (DISK_DARK :: post)), c)
        = (pre ++ (LDb r ++ (DISK_DARK :: post)), c + r) := by
  induction r with
  | zero => intro pre post c; simp [DLb, LDb]
  | succ r ih =>
    intro pre post c
    have hsz : 2 * (r + 1) = (2 * r) + 1 + 1 := by ring
    rw [hsz, List.range'_succ, List.range'_succ, List.foldl_cons,
        List.foldl_cons]
    -- first scan position: a (dark, light) pair, so it swaps
    have hD : disk_state.get (pre ++ (DLb (r + 1) ++ (DISK_DARK :: post)))
        pre.length = DISK_DARK := by
      rw [DLb]; exact get_append_len pre _ _
    have hL : disk_state.get (pre ++ (DLb (r + 1) ++ (DISK_DARK :: post)))
        (pre.length + 1) = DISK_LIGHT := by
      rw [DLb]
      have := get_append_add pre
        (DISK_DARK :: DISK_LIGHT :: (DLb r ++ (DISK_DARK :: post))) 1
      simpa [disk_state.get] using this
    have hstep1 : fwStep (pre ++ (DLb (r + 1) ++ (DISK_DARK :: post)), c)
        pre.length
        = (pre ++ (DISK_LIGHT :: DISK_DARK :: (DLb r ++ (DISK_DARK :: post))),
           c + 1) := by
      rw [fwStep, if_pos ⟨hD, hL⟩]
      rw [DLb]
      have : pre ++ DISK_DARK :: DISK_LIGHT :: (DLb r ++ (DISK_DARK :: post))
          = pre ++ (DISK_DARK :: DISK_LIGHT :: DLb r ++ (DISK_DARK :: post)) := by
        simp
      rw [← this, swap_append pre (DLb r ++ (DISK_DARK :: post))]
    rw [hstep1]
    -- second scan position: (dark, dark), no swap
    have hD2 : disk_state.get
        (pre ++ (DISK_LIGHT :: DISK_DARK :: (DLb r ++ (DISK_DARK :: post))))
        (pre.length + 1 + 1) = DISK_DARK := by
      have := get_append_add pre
        (DISK_LIGHT :: DISK_DARK :: (DLb r ++ (DISK_DARK :: post))) 2
      rw [show pre.length + 1 + 1 = pre.length + 2 by ring]
      rw [this]
      cases r with
      | zero => simp [DLb, disk_state.get]
      | succ r => simp [DLb, disk_state.get]
    have hstep2 : fwStep
        (pre ++ (DISK_LIGHT :: DISK_DARK :: (DLb r ++ (DISK_DARK :: post))),
         c + 1) (pre.length + 1)
        = (pre ++ (DISK_LIGHT :: DISK_DARK :: (DLb r ++ (DISK_DARK :: post))),
           c + 1) := by
      rw [fwStep, if_neg]
      intro hcontra
      rw [hD2] at hcontra
      exact absurd hcontra.2 (by simp)
    rw [hstep2]
    -- the rest of the pass is the r-block pass shifted by two
    have hre : pre ++ (DISK_LIGHT :: DISK_DARK :: (DLb r ++ (DISK_DARK :: post)))
        = (pre ++ [DISK_LIGHT, DISK_DARK]) ++ (DLb r ++ (DISK_DARK :: post)) := by
      simp
    have hlen2 : pre.length + 1 + 1 = (pre ++ [DISK_LIGHT, DISK_DARK]).length := by
      simp
    rw [hre, hlen2, ih (pre ++ [DISK_LIGHT, DISK_DARK]) post (c + 1),
        Prod.mk.injEq]
    constructor
    · rw [LDb]; simp
    · omega

/-- The outer loop of sort_left_to_right, run from pass `m - 1` on the state
`L^m (DL)^r D^m`, finishes with the grouped row after `tri r` further
swaps. -/
theorem ltr_outer (k : Nat) :
    ∀ (r m c : Nat), m + r = k → 1 ≤ m →
      (List.range' (m - 1) (k - (m - 1))).foldl
          (fun sc' i => ltrPass (2 * k) i sc')
          (List.replicate m DISK_LIGHT ++
            (DLb r ++ List.replicate m DISK_DARK), c)
        = (List.replicate k DISK_LIGHT ++ List.replicate k DISK_DARK,
           c + tri r) := by
  intro r
  induction r with
  | zero =>
    intro m c hmk hm
    have hmk' : m = k := by omega
    have h1 : k - (m - 1) = 1 := by omega
    rw [h1, List.range'_succ, List.range'_zero, List.foldl_cons, List.foldl_nil]
    have hwin0 : 2 * k - (m - 1) - 1 - (m - 1 + 1) = 0 := by omega
    rw [ltrPass, hwin0]
    subst hmk'
    simp [DLb, tri]
  | succ r ih =>
    intro m c hmk hm
    obtain ⟨m', rfl⟩ : ∃ m', m = m' + 1 := ⟨m - 1, by omega⟩
    have h1 : k - (m' + 1 - 1) = (r + 1) + 1 := by omega
    rw [h1, List.range'_succ, List.foldl_cons]
    -- the pass at index m' over the window (DL)^(r+1)
    have hwin : 2 * k - (m' + 1 - 1) - 1 - (m' + 1 - 1 + 1) = 2 * (r + 1) := by
      omega
    have hrep : List.replicate (m' + 1) DISK_DARK
        = DISK_DARK :: List.replicate m' DISK_DARK := List.replicate_succ _ _
    have hlenL : (List.replicate (m' + 1) DISK_LIGHT).length = m' + 1 := by
      simp
    have hpass : ltrPass (2 * k) (m' + 1 - 1)
        (List.replicate (m' + 1) DISK_LIGHT ++
          (DLb (r + 1) ++ List.replicate (m' + 1) DISK_DARK), c)
        = (List.replicate (m' + 1) DISK_LIGHT ++
            (LDb (r + 1) ++ (DISK_DARK :: List.replicate m' DISK_DARK)),
           c + (r + 1)) := by
      rw [ltrPass, hwin]
      have hstart : m' + 1 - 1 + 1 = (List.replicate (m' + 1) DISK_LIGHT).length := by
        simp
      rw [hstart, hrep]
      exact ltr_scan (r + 1) (List.replicate (m' + 1) DISK_LIGHT)
        (List.replicate m' DISK_DARK) c
    rw [hpass]
    -- the new state is L^(m+1) (DL)^r D^(m+1)
    have hstate : List.replicate (m' + 1) DISK_LIGHT ++
        (LDb (r + 1) ++ (DISK_DARK :: List.replicate m' DISK_DARK))
        = List.replicate (m' + 2) DISK_LIGHT ++
            (DLb r ++ List.replicate (m' + 2) DISK_DARK) := by
      rw [LDb_succ_split,
          show List.replicate (m' + 2) DISK_LIGHT
            = List.replicate (m' + 1) DISK_LIGHT ++ [DISK_LIGHT] from
            List.replicate_succ' _ _,
          show List.replicate (m' + 2) DISK_DARK
            = DISK_DARK :: DISK_DARK :: List.replicate m' DISK_DARK by
            simp [List.replicate_succ]]
      simp
    rw [hstate]
    have htail := ih (m' + 2) (c + (r + 1)) (by omega) (by omega)
    have h2 : m' + 2 - 1 = m' + 1 := by omega
    rw [h2] at htail
    rw [show k - (m' + 1) = r + 1 by omega] at htail
    rw [show m' + 1 - 1 + 1 = m' + 1 by omega, htail, Prod.mk.injEq]
    refine ⟨rfl, ?_⟩
    rw [tri]
    omega

/-! The alternating rows of even length are exactly the blocks `LDb k`. -/

theorem alt_scan (r : Nat) :
    ∀ (s : disk_state) (pre : List disk_color), s = pre ++ LDb r →
      (List.range' pre.length r 2).all (fun i =>
        (disk_state.get s i == DISK_LIGHT) &&
          (disk_state.get s (i + 1) == DISK_DARK)) = true := by
  induction r with
  | zero => intro s pre _; simp
  | succ r ih =>
    intro s pre hs
    rw [List.range'_succ, List.all_cons]
    have hsplit : s = (pre ++ [DISK_LIGHT, DISK_DARK]) ++ LDb r := by
      rw [hs, LDb]; simp
    have hL : disk_state.get s pre.length = DISK_LIGHT := by
      rw [hs, LDb]; exact get_append_len pre _ _
    have hD : disk_state.get s (pre.length + 1) = DISK_DARK := by
      rw [hs, LDb]
      have := get_append_add pre (DISK_LIGHT :: DISK_DARK :: LDb r) 1
      simpa [disk_state.get] using this
    rw [hL, hD]
    have := ih s (pre ++ [DISK_LIGHT, DISK_DARK]) hsplit
    simp only [List.length_append, List.length_cons, List.length_nil] at this
    simpa [Nat.add_assoc] using this

theorem is_alternating_LDb (k : Nat) :
    disk_state.is_alternating (LDb k) = true := by
  rw [disk_state.is_alternating, LDb_length,
      Nat.mul_div_cancel_left k (by norm_num : 0 < 2)]
  have := alt_scan k (LDb k) [] (by simp)
  simpa using this

theorem alt_shift (cnt : Nat) :
    ∀ (m : Nat) (x y : disk_color) (t : List disk_color),
      (List.range' (m + 2) cnt 2).all (fun i =>
        (disk_state.get (x :: y :: t) i == DISK_LIGHT) &&
          (disk_state.get (x :: y :: t) (i + 1) == DISK_DARK))
      = (List.range' m cnt 2).all (fun i =>
        (disk_state.get t i == DISK_LIGHT) &&
          (disk_state.get t (i + 1) == DISK_DARK)) := by
  induction cnt with
  | zero => intro m x y t; simp
  | succ cnt ih =>
    intro m x y t
    rw [List.range'_succ, List.range'_succ, List.all_cons, List.all_cons]
    have h1 : disk_state.get (x :: y :: t) (m + 2) = disk_state.get t m := by
      simp [disk_state.get]
    have h2 : disk_state.get (x :: y :: t) (m + 2 + 1) = disk_state.get t (m + 1) := by
      simp [disk_state.get, show m + 2 + 1 = (m + 1) + 1 + 1 by omega]
    rw [h1, h2, ih (m + 2) x y t]

/-- An alternating row of length `2k` is exactly the constructor's row. -/
theorem alt_char (k : Nat) :
    ∀ (l : disk_state), l.length = 2 * k →
      disk_state.is_alternating l = true → l = LDb k := by
  induction k with
  | zero =>
    intro l hl _
    rw [LDb]
    exact List.length_eq_zero.mp (by omega)
  | succ k ih =>
    intro l hl halt
    match l, hl with
    | a :: b :: t, hl =>
      rw [disk_state.is_alternating] at halt
      have hlen : (a :: b :: t).length / 2 = k + 1 := by
        simp only [List.length_cons] at hl ⊢
        omega
      rw [hlen, List.range'_succ, List.all_cons] at halt
      have h0 : disk_state.get (a :: b :: t) 0 = a := rfl
      have h1 : disk_state.get (a :: b :: t) (0 + 1) = b := rfl
      rw [Bool.and_eq_true] at halt
      obtain ⟨hhead, htail⟩ := halt
      rw [h0, h1, Bool.and_eq_true] at hhead
      obtain ⟨ha', hb'⟩ := hhead
      have ha : a = DISK_LIGHT := by simpa using ha'
      have hb : b = DISK_DARK := by simpa using hb'
      have hshift := alt_shift k 0 a b t
      rw [show (0 : Nat) + 2 = 2 by rfl] at hshift
      rw [hshift] at htail
      have htlen : t.length = 2 * k := by
        simp only [List.length_cons] at hl
        omega
      have : disk_state.is_alternating t = true := by
        rw [disk_state.is_alternating, htlen,
            Nat.mul_div_cancel_left k (by norm_num : 0 < 2)]
        exact htail
      have ht := ih t htlen this
      rw [ha, hb, ht, LDb]

/-- The grouped row passes the is_sorted check. -/
theorem is_sorted_grouped (k : Nat) :
    disk_state.is_sorted
      (List.replicate k DISK_LIGHT ++ List.replicate k DISK_DARK) = true := by
  have hlc : disk_state.light_count
      (List.replicate k DISK_LIGHT ++ List.replicate k DISK_DARK) = k := by
    rw [disk_state.light_count, disk_state.dark_count, disk_state.total_count]
    simp
    omega
  rw [disk_state.is_sorted, hlc]
  apply List.all_eq_true.mpr
  intro i hi
  rw [List.mem_range] at hi
  have hL : disk_state.get
      (List.replicate k DISK_LIGHT ++ List.replicate k DISK_DARK) i
      = DISK_LIGHT := by
    rw [get_append_lt _ _ _ (by simp; omega)]
    exact get_replicate k i DISK_LIGHT hi
  have hD : disk_state.get
      (List.replicate k DISK_LIGHT ++ List.replicate k DISK_DARK) (i + k)
      = DISK_DARK := by
    have hlen : (List.replicate k DISK_LIGHT).length = k := by simp
    have h2 := get_append_add (List.replicate k DISK_LIGHT)
      (List.replicate k DISK_DARK) i
    rw [hlen] at h2
    rw [show i + k = k + i by omega, h2]
    exact get_replicate k i DISK_DARK hi
  rw [hL, hD]
  simp

/-- Behaviour of sort_left_to_right on the alternating row of `2k` disks:
it groups the row and performs `tri (k-1)` swaps. -/
theorem sort_left_to_right_LDb (k : Nat) (hk : 1 ≤ k) :
    sort_left_to_right (LDb k)
      = some ⟨List.replicate k DISK_LIGHT ++ List.replicate k DISK_DARK,
              tri (k - 1)⟩ := by
  have hlc : disk_state.light_count (LDb k) = k := by
    rw [disk_state.light_count, disk_state.dark_count, disk_state.total_count,
        LDb_length, Nat.mul_div_cancel_left k (by norm_num : 0 < 2)]
  have htc : disk_state.total_count (LDb k) = 2 * k := by
    rw [disk_state.total_count, LDb_length]
  have hstart : LDb k = List.replicate 1 DISK_LIGHT ++
      (DLb (k - 1) ++ List.replicate 1 DISK_DARK) := by
    have := LDb_succ_split (k - 1)
    rw [show k - 1 + 1 = k by omega] at this
    rw [this]
    simp
  have houter : ltrOuter k (2 * k) (LDb k, 0)
      = (List.replicate k DISK_LIGHT ++ List.replicate k DISK_DARK,
         tri (k - 1)) := by
    rw [ltrOuter, List.range_eq_range']
    have := ltr_outer k (k - 1) 1 0 (by omega) (by omega)
    rw [show (1 : Nat) - 1 = 0 by rfl, show k - 0 = k by omega] at this
    rw [hstart, this]
    simp
  rw [sort_left_to_right, if_pos (is_alternating_LDb k), hlc, htc, houter]

/-! ### Correctness of sort_lawnmower on alternating rows

Because the source's brace placement runs the counter increment and a whole
right-to-left scan inside the forward loop, the algorithm's state after the
`j`-th forward step is `L^(j+2) D^2 (LD)^(k-2-j) D^j`.  The key lemma is the
effect of one right-to-left scan. -/

theorem range'_reverse_succ (lo n : Nat) :
    (List.range' lo (n + 1)).reverse = (lo + n) :: (List.range' lo n).reverse := by
  rw [List.range'_1_concat]
  simp

/-- One right-to-left scan with shrink counter `i = pre0.length`, started at
index `pre0.length + 2s + 3`, over the state
`pre0 ++ L D D (LD)^s L post`, moves the lone light disk left across the two
dark disks and re-forms the `(LD)^s` block, in `s + 2` swaps. -/
theorem back_scan (s : Nat) :
    ∀ (pre0 post : List disk_color) (c : Nat),
      ((List.range' (pre0.length + 1) (2 * s + 3)).reverse).foldl bwStep
          (pre0 ++ (DISK_LIGHT :: DISK_DARK :: DISK_DARK ::
            (LDb s ++ (DISK_LIGHT :: post))), c)
        = (pre0 ++ (DISK_LIGHT :: DISK_LIGHT :: DISK_DARK :: DISK_DARK ::
            (LDb s ++ post)), c + s + 2) := by
  induction s with
  | zero =>
    intro pre0 post c
    have hscan : ((List.range' (pre0.length + 1) (2 * 0 + 3)).reverse)
        = [pre0.length + 3, pre0.length + 2, pre0.length + 1] := by
      rw [show 2 * 0 + 3 = 2 + 1 by rfl, range'_reverse_succ,
          show (2 : Nat) = 1 + 1 by rfl, range'_reverse_succ,
          range'_reverse_succ]
      simp
    rw [hscan]
    simp only [LDb, List.nil_append, List.foldl_cons, List.foldl_nil]
    -- first visited index: (dark, light) pair at (pre0.length+2, +3); swap
    have g3 : disk_state.get
        (pre0 ++ (DISK_LIGHT :: DISK_DARK :: DISK_DARK :: DISK_LIGHT :: post))
        (pre0.length + 3) = DISK_LIGHT := by
      rw [get_append_add]; rfl
    have g2 : disk_state.get
        (pre0 ++ (DISK_LIGHT :: DISK_DARK :: DISK_DARK :: DISK_LIGHT :: post))
        (pre0.length + 2) = DISK_DARK := by
      rw [get_append_add]; rfl
    have hstep1 : bwStep
        (pre0 ++ (DISK_LIGHT :: DISK_DARK :: DISK_DARK :: DISK_LIGHT :: post), c)
        (pre0.length + 3)
        = (pre0 ++ (DISK_LIGHT :: DISK_DARK :: DISK_LIGHT :: DISK_DARK :: post),
           c + 1) := by
      rw [bwStep, show pre0.length + 3 - 1 = pre0.length + 2 by omega,
          if_pos ⟨g3, g2⟩]
      have hform : pre0 ++ (DISK_LIGHT :: DISK_DARK :: DISK_DARK ::
          DISK_LIGHT :: post)
          = (pre0 ++ [DISK_LIGHT, DISK_DARK]) ++
              DISK_DARK :: DISK_LIGHT :: post := by simp
      have hlen : pre0.length + 2 = (pre0 ++ [DISK_LIGHT, DISK_DARK]).length := by
        simp
      rw [hform, hlen, swap_append]
      simp
    rw [hstep1]
    -- second visited index: (dark, light) pair at (pre0.length+1, +2); swap
    have g2' : disk_state.get
        (pre0 ++ (DISK_LIGHT :: DISK_DARK :: DISK_LIGHT :: DISK_DARK :: post))
        (pre0.length + 2) = DISK_LIGHT := by
      rw [get_append_add]; rfl
    have g1' : disk_state.get
        (pre0 ++ (DISK_LIGHT :: DISK_DARK :: DISK_LIGHT :: DISK_DARK :: post))
        (pre0.length + 1) = DISK_DARK := by
      rw [get_append_add]; rfl
    have hstep2 : bwStep
        (pre0 ++ (DISK_LIGHT :: DISK_DARK :: DISK_LIGHT :: DISK_DARK :: post),
         c + 1) (pre0.length + 2)
        = (pre0 ++ (DISK_LIGHT :: DISK_LIGHT :: DISK_DARK :: DISK_DARK :: post),
           c + 2) := by
      rw [bwStep, show pre0.length + 2 - 1 = pre0.length + 1 by omega,
          if_pos ⟨g2', g1'⟩]
      have hform : pre0 ++ (DISK_LIGHT :: DISK_DARK :: DISK_LIGHT ::
          DISK_DARK :: post)
          = (pre0 ++ [DISK_LIGHT]) ++
              DISK_DARK :: DISK_LIGHT :: (DISK_DARK :: post) := by simp
      have hlen : pre0.length + 1 = (pre0 ++ [DISK_LIGHT]).length := by simp
      rw [hform, hlen, swap_append]
      simp
    rw [hstep2]
    -- last visited index: (light, light), no swap
    have g1'' : disk_state.get
        (pre0 ++ (DISK_LIGHT :: DISK_LIGHT :: DISK_DARK :: DISK_DARK :: post))
        (pre0.length + 1) = DISK_LIGHT := by
      rw [get_append_add]; rfl
    have g0'' : disk_state.get
        (pre0 ++ (DISK_LIGHT :: DISK_LIGHT :: DISK_DARK :: DISK_DARK :: post))
        (pre0.length) = DISK_LIGHT := by
      have := get_append_add pre0
        (DISK_LIGHT :: DISK_LIGHT :: DISK_DARK :: DISK_DARK :: post) 0
      simpa using this
    have hstep3 : bwStep
        (pre0 ++ (DISK_LIGHT :: DISK_LIGHT :: DISK_DARK :: DISK_DARK :: post),
         c + 2) (pre0.length + 1)
        = (pre0 ++ (DISK_LIGHT :: DISK_LIGHT :: DISK_DARK :: DISK_DARK :: post),
           c + 2) := by
      rw [bwStep, show pre0.length + 1 - 1 = pre0.length by omega, if_neg]
      intro hcontra
      rw [g0''] at hcontra
      exact absurd hcontra.2 (by simp)
    rw [hstep3]
  | succ s ih =>
    intro pre0 post c
    -- peel the two highest indices off the scan
    have hscan : ((List.range' (pre0.length + 1) (2 * (s + 1) + 3)).reverse)
        = (pre0.length + 2 * s + 5) :: (pre0.length + 2 * s + 4) ::
            ((List.range' (pre0.length + 1) (2 * s + 3)).reverse) := by
      rw [show 2 * (s + 1) + 3 = (2 * s + 4) + 1 by ring, range'_reverse_succ,
          show 2 * s + 4 = (2 * s + 3) + 1 by ring, range'_reverse_succ,
          show pre0.length + 1 + (2 * s + 4) = pre0.length + 2 * s + 5 by omega,
          show pre0.length + 1 + (2 * s + 3) = pre0.length + 2 * s + 4 by omega]
    rw [hscan, List.foldl_cons, List.foldl_cons]
    -- block split: (LD)^(s+1) = (LD)^s ++ [L, D]
    have hsplit : pre0 ++ (DISK_LIGHT :: DISK_DARK :: DISK_DARK ::
        (LDb (s + 1) ++ (DISK_LIGHT :: post)))
        = pre0 ++ (DISK_LIGHT :: DISK_DARK :: DISK_DARK ::
            (LDb s ++ (DISK_LIGHT :: DISK_DARK :: DISK_LIGHT :: post))) := by
      rw [LDb_succ_concat]
      simp
    rw [hsplit]
    -- the element before the lone light disk is the block's last dark disk:
    -- (dark, light) at (pre0.length + 2s + 4, + 2s + 5); swap
    have hA : pre0 ++ (DISK_LIGHT :: DISK_DARK :: DISK_DARK ::
        (LDb s ++ (DISK_LIGHT :: DISK_DARK :: DISK_LIGHT :: post)))
        = (pre0 ++ (DISK_LIGHT :: DISK_DARK :: DISK_DARK :: LDb s)) ++
            (DISK_LIGHT :: DISK_DARK :: DISK_LIGHT :: post) := by
      simp
    have hAlen : (pre0 ++ (DISK_LIGHT :: DISK_DARK :: DISK_DARK :: LDb s)).length
        = pre0.length + 2 * s + 3 := by
      simp
      omega
    have g5 : disk_state.get
        ((pre0 ++ (DISK_LIGHT :: DISK_DARK :: DISK_DARK :: LDb s)) ++
          (DISK_LIGHT :: DISK_DARK :: DISK_LIGHT :: post))
        (pre0.length + 2 * s + 5) = DISK_LIGHT := by
      have := get_append_add
        (pre0 ++ (DISK_LIGHT :: DISK_DARK :: DISK_DARK :: LDb s))
        (DISK_LIGHT :: DISK_DARK :: DISK_LIGHT :: post) 2
      rw [hAlen] at this
      rw [show pre0.length + 2 * s + 5 = pre0.length + 2 * s + 3 + 2 by omega,
          this]
      rfl
    have g4 : disk_state.get
        ((pre0 ++ (DISK_LIGHT :: DISK_DARK :: DISK_DARK :: LDb s)) ++
          (DISK_LIGHT :: DISK_DARK :: DISK_LIGHT :: post))
        (pre0.length + 2 * s + 4) = DISK_DARK := by
      have := get_append_add
        (pre0 ++ (DISK_LIGHT :: DISK_DARK :: DISK_DARK :: LDb s))
        (DISK_LIGHT :: DISK_DARK :: DISK_LIGHT :: post) 1
      rw [hAlen] at this
      rw [show pre0.length + 2 * s + 4 = pre0.length + 2 * s + 3 + 1 by omega,
          this]
      rfl
    have hstepA : bwStep
        (pre0 ++ (DISK_LIGHT :: DISK_DARK :: DISK_DARK ::
          (LDb s ++ (DISK_LIGHT :: DISK_DARK :: DISK_LIGHT :: post))), c)
        (pre0.length + 2 * s + 5)
        = (pre0 ++ (DISK_LIGHT :: DISK_DARK :: DISK_DARK ::
            (LDb s ++ (DISK_LIGHT :: DISK_LIGHT :: DISK_DARK :: post))),
           c + 1) := by
      rw [hA, bwStep,
          show pre0.length + 2 * s + 5 - 1 = pre0.length + 2 * s + 4 by omega,
          if_pos ⟨g5, g4⟩]
      have hform : (pre0 ++ (DISK_LIGHT :: DISK_DARK :: DISK_DARK :: LDb s)) ++
          (DISK_LIGHT :: DISK_DARK :: DISK_LIGHT :: post)
          = ((pre0 ++ (DISK_LIGHT :: DISK_DARK :: DISK_DARK :: LDb s)) ++
              [DISK_LIGHT]) ++ DISK_DARK :: DISK_LIGHT :: post := by simp
      have hlen : pre0.length + 2 * s + 4
          = ((pre0 ++ (DISK_LIGHT :: DISK_DARK :: DISK_DARK :: LDb s)) ++
              [DISK_LIGHT]).length := by
        simp
        omega
      rw [hform, hlen, swap_append]
      simp
    rw [hstepA]
    -- next index: (light, light), no swap
    have g4' : disk_state.get
        (pre0 ++ (DISK_LIGHT :: DISK_DARK :: DISK_DARK ::
          (LDb s ++ (DISK_LIGHT :: DISK_LIGHT :: DISK_DARK :: post))))
        (pre0.length + 2 * s + 4) = DISK_LIGHT := by
      have hA' : pre0 ++ (DISK_LIGHT :: DISK_DARK :: DISK_DARK ::
          (LDb s ++ (DISK_LIGHT :: DISK_LIGHT :: DISK_DARK :: post)))
          = (pre0 ++ (DISK_LIGHT :: DISK_DARK :: DISK_DARK :: LDb s)) ++
              (DISK_LIGHT :: DISK_LIGHT :: DISK_DARK :: post) := by simp
      have := get_append_add
        (pre0 ++ (DISK_LIGHT :: DISK_DARK :: DISK_DARK :: LDb s))
        (DISK_LIGHT :: DISK_LIGHT :: DISK_DARK :: post) 1
      rw [hAlen] at this
      rw [hA', show pre0.length + 2 * s + 4 = pre0.length + 2 * s + 3 + 1 by omega,
          this]
      rfl
    have g3' : disk_state.get
        (pre0 ++ (DISK_LIGHT :: DISK_DARK :: DISK_DARK ::
          (LDb s ++ (DISK_LIGHT :: DISK_LIGHT :: DISK_DARK :: post))))
        (pre0.length + 2 * s + 3) = DISK_LIGHT := by
      have hA' : pre0 ++ (DISK_LIGHT :: DISK_DARK :: DISK_DARK ::
          (LDb s ++ (DISK_LIGHT :: DISK_LIGHT :: DISK_DARK :: post)))
          = (pre0 ++ (DISK_LIGHT :: DISK_DARK :: DISK_DARK :: LDb s)) ++
              (DISK_LIGHT :: DISK_LIGHT :: DISK_DARK :: post) := by simp
      have := get_append_add
        (pre0 ++ (DISK_LIGHT :: DISK_DARK :: DISK_DARK :: LDb s))
        (DISK_LIGHT :: DISK_LIGHT :: DISK_DARK :: post) 0
      rw [hAlen] at this
      rw [hA', show pre0.length + 2 * s + 3 = pre0.length + 2 * s + 3 + 0 by omega,
          this]
      rfl
    have hstepB : bwStep
        (pre0 ++ (DISK_LIGHT :: DISK_DARK :: DISK_DARK ::
          (LDb s ++ (DISK_LIGHT :: DISK_LIGHT :: DISK_DARK :: post))), c + 1)
        (pre0.length + 2 * s + 4)
        = (pre0 ++ (DISK_LIGHT :: DISK_DARK :: DISK_DARK ::
            (LDb s ++ (DISK_LIGHT :: DISK_LIGHT :: DISK_DARK :: post))),
           c + 1) := by
      rw [bwStep,
          show pre0.length + 2 * s + 4 - 1 = pre0.length + 2 * s + 3 by omega,
          if_neg]
      intro hcontra
      rw [g3'] at hcontra
      exact absurd hcontra.2 (by simp)
    rw [hstepB]
    -- the remaining scan is the induction hypothesis with the lone light
    -- disk now the one freed from the block
    have := ih pre0 (DISK_LIGHT :: DISK_DARK :: post) (c + 1)
    rw [this, Prod.mk.injEq]
    constructor
    · rw [LDb_succ_concat]
      simp
    · omega

/-! Once the row is grouped, no further scan of either kind changes it. -/

theorem bwStep_sorted (k j c : Nat) (hj : j < 2 * k) :
    bwStep (List.replicate k DISK_LIGHT ++ List.replicate k DISK_DARK, c) j
      = (List.replicate k DISK_LIGHT ++ List.replicate k DISK_DARK, c) := by
  rw [bwStep, if_neg]
  intro hcontra
  obtain ⟨h1, h2⟩ := hcontra
  by_cases hjk : j < k
  · have : disk_state.get
        (List.replicate k DISK_LIGHT ++ List.replicate k DISK_DARK) (j - 1)
        = DISK_LIGHT := by
      rw [get_append_lt _ _ _ (by simp; omega)]
      exact get_replicate k (j - 1) DISK_LIGHT (by omega)
    rw [this] at h2
    exact absurd h2 (by simp)
  · have hl : (List.replicate k DISK_LIGHT).length = k := by simp
    have h := get_append_add (List.replicate k DISK_LIGHT)
      (List.replicate k DISK_DARK) (j - k)
    rw [hl] at h
    rw [show j = k + (j - k) by omega, h,
        get_replicate k (j - k) DISK_DARK (by omega)] at h1
    exact absurd h1 (by simp)

theorem foldl_bwStep_sorted (k c : Nat) :
    ∀ (l : List Nat), (∀ j ∈ l, j < 2 * k) →
      l.foldl bwStep
          (List.replicate k DISK_LIGHT ++ List.replicate k DISK_DARK, c)
        = (List.replicate k DISK_LIGHT ++ List.replicate k DISK_DARK, c) := by
  intro l
  induction l with
  | nil => intro _; rfl
  | cons j t ih =>
    intro hmem
    rw [List.foldl_cons, bwStep_sorted k j c (hmem j (by simp)),
        ih (fun x hx => hmem x (by simp [hx]))]

theorem backSweep_sorted (k i n c : Nat) (hn : n ≤ 2 * k) :
    backSweep i n
        (List.replicate k DISK_LIGHT ++ List.replicate k DISK_DARK, c)
      = (List.replicate k DISK_LIGHT ++ List.replicate k DISK_DARK, c) := by
  rw [backSweep]
  apply foldl_bwStep_sorted
  intro j hj
  rw [List.mem_reverse, List.mem_range'_1] at hj
  omega

/-! The tail of the forward loop, once the row is grouped. -/

theorem fwd_end (k : Nat) (sc : disk_state × Nat) :
    fwdLoop (2 * k) k (k + 1) sc = (k, sc) := by
  rw [fwdLoop, if_neg (by omega)]

theorem fwd_at_k (k : Nat) (hk : 2 ≤ k) (c : Nat) :
    fwdLoop (2 * k) (k - 1) k
        (List.replicate k DISK_LIGHT ++ List.replicate k DISK_DARK, c)
      = (k, List.replicate k DISK_LIGHT ++ List.replicate k DISK_DARK, c) := by
  have hl : (List.replicate k DISK_LIGHT).length = k := by simp
  have hgk1 : disk_state.get
      (List.replicate k DISK_LIGHT ++ List.replicate k DISK_DARK) (k + 1)
      = DISK_DARK := by
    have h := get_append_add (List.replicate k DISK_LIGHT)
      (List.replicate k DISK_DARK) 1
    rw [hl] at h
    rw [h]
    exact get_replicate k 1 DISK_DARK (by omega)
  have hfw : fwStep
      (List.replicate k DISK_LIGHT ++ List.replicate k DISK_DARK, c) k
      = (List.replicate k DISK_LIGHT ++ List.replicate k DISK_DARK, c) := by
    rw [fwStep, if_neg]
    intro hcontra
    rw [hgk1] at hcontra
    exact absurd hcontra.2 (by simp)
  rw [fwdLoop, if_pos (by omega), hfw, show k - 1 + 1 = k by omega,
      backSweep_sorted k k (2 * k) c (by omega), fwd_end k]

theorem fwd_at_km1 (k : Nat) (hk : 2 ≤ k) (c : Nat) :
    fwdLoop (2 * k) (k - 2) (k - 1)
        (List.replicate k DISK_LIGHT ++ List.replicate k DISK_DARK, c)
      = (k, List.replicate k DISK_LIGHT ++ List.replicate k DISK_DARK, c) := by
  have hfw : fwStep
      (List.replicate k DISK_LIGHT ++ List.replicate k DISK_DARK, c) (k - 1)
      = (List.replicate k DISK_LIGHT ++ List.replicate k DISK_DARK, c) := by
    rw [fwStep, if_neg]
    intro hcontra
    have : disk_state.get
        (List.replicate k DISK_LIGHT ++ List.replicate k DISK_DARK) (k - 1)
        = DISK_LIGHT := by
      rw [get_append_lt _ _ _ (by simp; omega)]
      exact get_replicate k (k - 1) DISK_LIGHT (by omega)
    rw [this] at hcontra
    exact absurd hcontra.1 (by simp)
  rw [fwdLoop, if_pos (by omega), hfw, show k - 2 + 1 = k - 1 by omega,
      backSweep_sorted k (k - 1) (2 * k) c (by omega),
      show k - 1 + 1 = k by omega, fwd_at_k k hk c]


theorem pcount_tri : ∀ s, pcount s + 1 = tri (s + 2) := by
  intro s
  induction s with
  | zero => rfl
  | succ s ih =>
    rw [pcount, show s + 1 + 2 = (s + 2) + 1 by omega, tri]
    omega

/-- One forward step of `sort_lawnmower` in its main phase: from the state
`L^(j+1) D^2 (LD)^(k-1-j) D^(j-1)` the step performs no forward swap, and
its embedded right-to-left scan produces `L^(j+2) D^2 (LD)^(k-2-j) D^j`
with `k - j` swaps. -/
theorem fwd_step_B (k j c : Nat) (hj2 : 2 ≤ j) (hjk : j + 2 ≤ k) :
    fwdLoop (2 * k) (j - 1) j
        (List.replicate (j + 1) DISK_LIGHT ++
          (DISK_DARK :: DISK_DARK ::
            (LDb (k - 1 - j) ++ List.replicate (j - 1) DISK_DARK)), c)
      = fwdLoop (2 * k) j (j + 1)
          (List.replicate (j + 2) DISK_LIGHT ++
            (DISK_DARK :: DISK_DARK ::
              (LDb (k - 2 - j) ++ List.replicate j DISK_DARK)), c + (k - j)) := by
  have hfw : fwStep
      (List.replicate (j + 1) DISK_LIGHT ++
        (DISK_DARK :: DISK_DARK ::
          (LDb (k - 1 - j) ++ List.replicate (j - 1) DISK_DARK)), c) j
      = (List.replicate (j + 1) DISK_LIGHT ++
          (DISK_DARK :: DISK_DARK ::
            (LDb (k - 1 - j) ++ List.replicate (j - 1) DISK_DARK)), c) := by
    rw [fwStep, if_neg]
    intro hcontra
    have : disk_state.get
        (List.replicate (j + 1) DISK_LIGHT ++
          (DISK_DARK :: DISK_DARK ::
            (LDb (k - 1 - j) ++ List.replicate (j - 1) DISK_DARK))) j
        = DISK_LIGHT := by
      rw [get_append_lt _ _ _ (by simp)]
      exact get_replicate (j + 1) j DISK_LIGHT (by omega)
    rw [this] at hcontra
    exact absurd hcontra.1 (by simp)
  rw [fwdLoop, if_pos (by omega), hfw, show j - 1 + 1 = j by omega, backSweep,
      show 2 * k - j - 1 - j = 2 * (k - 2 - j) + 3 by omega]
  have hform : List.replicate (j + 1) DISK_LIGHT ++
      (DISK_DARK :: DISK_DARK ::
        (LDb (k - 1 - j) ++ List.replicate (j - 1) DISK_DARK))
      = List.replicate j DISK_LIGHT ++
          (DISK_LIGHT :: DISK_DARK :: DISK_DARK ::
            (LDb (k - 2 - j) ++
              (DISK_LIGHT :: List.replicate j DISK_DARK))) := by
    rw [show k - 1 - j = (k - 2 - j) + 1 by omega, LDb_succ_concat,
        List.replicate_succ',
        show List.replicate j DISK_DARK
          = DISK_DARK :: List.replicate (j - 1) DISK_DARK by
          rw [← List.replicate_succ]
          congr 1
          omega]
    simp
  rw [hform]
  have hbs := back_scan (k - 2 - j) (List.replicate j DISK_LIGHT)
    (List.replicate j DISK_DARK) c
  simp only [List.length_replicate] at hbs
  rw [hbs]
  have hform2 : List.replicate j DISK_LIGHT ++
      (DISK_LIGHT :: DISK_LIGHT :: DISK_DARK :: DISK_DARK ::
        (LDb (k - 2 - j) ++ List.replicate j DISK_DARK))
      = List.replicate (j + 2) DISK_LIGHT ++
          (DISK_DARK :: DISK_DARK ::
            (LDb (k - 2 - j) ++ List.replicate j DISK_DARK)) := by
    rw [show j + 2 = (j + 1) + 1 from rfl, List.replicate_succ',
        List.replicate_succ']
    simp
  rw [hform2, show c + (k - 2 - j) + 2 = c + (k - j) by omega]

/-- The main phase of `sort_lawnmower`: from forward step `j = k - 2 - s`
onward the loop carries the state `L^(j+1) D^2 (LD)^(k-1-j) D^(j-1)` to the
grouped row, in `pcount s` further swaps. -/
theorem fwd_phase1 (k : Nat) :
    ∀ (s j c : Nat), 2 ≤ j → j + 2 + s = k →
      fwdLoop (2 * k) (j - 1) j
          (List.replicate (j + 1) DISK_LIGHT ++
            (DISK_DARK :: DISK_DARK ::
              (LDb (k - 1 - j) ++ List.replicate (j - 1) DISK_DARK)), c)
        = (k, List.replicate k DISK_LIGHT ++ List.replicate k DISK_DARK,
           c + pcount s) := by
  intro s
  induction s with
  | zero =>
    intro j c hj hk
    obtain rfl : k = j + 2 := by omega
    rw [fwd_step_B (j + 2) j c hj (by omega),
        show j + 2 - 2 - j = 0 by omega]
    have hstate : List.replicate (j + 2) DISK_LIGHT ++
        (DISK_DARK :: DISK_DARK :: (LDb 0 ++ List.replicate j DISK_DARK))
        = List.replicate (j + 2) DISK_LIGHT ++
            List.replicate (j + 2) DISK_DARK := by
      rw [LDb]
      simp [List.replicate_succ]
    rw [hstate, show j + 2 - j = 2 by omega]
    have := fwd_at_km1 (j + 2) (by omega) (c + 2)
    rw [show j + 2 - 2 = j by omega, show j + 2 - 1 = j + 1 by omega] at this
    rw [this, pcount]
  | succ s ih =>
    intro j c hj hk
    rw [fwd_step_B k j c hj (by omega)]
    have hIH := ih (j + 1) (c + (k - j)) (by omega) (by omega)
    rw [show k - 1 - (j + 1) = k - 2 - j by omega,
        show j + 1 - 1 = j by omega] at hIH
    rw [hIH, Prod.mk.injEq, Prod.mk.injEq]
    refine ⟨rfl, rfl, ?_⟩
    have hkj : k - j = s + 3 := by omega
    rw [hkj, pcount]
    omega

theorem LDb_light_count (k : Nat) : disk_state.light_count (LDb k) = k := by
  rw [disk_state.light_count, disk_state.dark_count, disk_state.total_count,
      LDb_length, Nat.mul_div_cancel_left k (by norm_num : 0 < 2)]

theorem LDb_total_count (k : Nat) : disk_state.total_count (LDb k) = 2 * k := by
  rw [disk_state.total_count, LDb_length]

/-- The first forward step of `sort_lawnmower` on the alternating row: the
one forward swap of the whole run, plus the first embedded right-to-left
scan; together with the remaining steps this grooms the row completely. -/
theorem fwd_first (k : Nat) (hk : 2 ≤ k) :
    fwdLoop (2 * k) 0 1 (LDb k, 0)
      = (k, List.replicate k DISK_LIGHT ++ List.replicate k DISK_DARK,
         tri (k - 1)) := by
  obtain ⟨k', rfl⟩ : ∃ k', k = k' + 2 := ⟨k - 2, by omega⟩
  rw [fwdLoop, if_pos (by omega)]
  have hswap : fwStep (LDb (k' + 2), 0) 1
      = (DISK_LIGHT :: DISK_LIGHT :: DISK_DARK :: DISK_DARK :: LDb k', 1) := by
    have h1 : disk_state.get (LDb (k' + 2)) 1 = DISK_DARK := rfl
    have h2 : disk_state.get (LDb (k' + 2)) 2 = DISK_LIGHT := rfl
    rw [fwStep, if_pos ⟨h1, h2⟩]
    have hsw := swap_append [DISK_LIGHT] (DISK_DARK :: LDb k')
      DISK_DARK DISK_LIGHT
    simp only [List.length_cons, List.length_nil, List.cons_append,
      List.nil_append] at hsw
    have hLD : LDb (k' + 2) = DISK_LIGHT :: DISK_DARK :: DISK_LIGHT ::
        DISK_DARK :: LDb k' := rfl
    rw [hLD, hsw]
  rw [hswap, show (0 : Nat) + 1 = 1 from rfl]
  match k' with
  | 0 =>
    have hbs : backSweep 1 (2 * (0 + 2))
        (DISK_LIGHT :: DISK_LIGHT :: DISK_DARK :: DISK_DARK :: LDb 0, 1)
        = (List.replicate 2 DISK_LIGHT ++ List.replicate 2 DISK_DARK, 1) := by
      rfl
    rw [hbs]
    have := fwd_at_k 2 (by omega) 1
    rw [show (2 : Nat) - 1 = 1 from rfl] at this
    rw [show (2 : Nat) * (0 + 2) = 2 * 2 from rfl, this]
    rfl
  | 1 =>
    have hbs : backSweep 1 (2 * (1 + 2))
        (DISK_LIGHT :: DISK_LIGHT :: DISK_DARK :: DISK_DARK :: LDb 1, 1)
        = (List.replicate 3 DISK_LIGHT ++ List.replicate 3 DISK_DARK, 3) := by
      rfl
    rw [hbs]
    have := fwd_at_km1 3 (by omega) 3
    rw [show (3 : Nat) - 2 = 1 from rfl, show (3 : Nat) - 1 = 2 from rfl] at this
    rw [show (2 : Nat) * (1 + 2) = 2 * 3 from rfl, this]
    rfl
  | k'' + 2 =>
    -- the first right-to-left scan is an instance of back_scan
    rw [backSweep, show 2 * (k'' + 2 + 2) - 1 - 1 - 1 = 2 * (k'' + 1) + 3 by
      omega]
    have hform : DISK_LIGHT :: DISK_LIGHT :: DISK_DARK :: DISK_DARK ::
        LDb (k'' + 2)
        = [DISK_LIGHT] ++ (DISK_LIGHT :: DISK_DARK :: DISK_DARK ::
            (LDb (k'' + 1) ++ (DISK_LIGHT :: [DISK_DARK]))) := by
      rw [LDb_succ_concat]
      simp
    rw [hform]
    have hbs := back_scan (k'' + 1) [DISK_LIGHT] [DISK_DARK] 1
    simp only [List.length_cons, List.length_nil] at hbs
    rw [hbs]
    -- the resulting state is the phase-1 state at forward step 2
    have hform2 : [DISK_LIGHT] ++ (DISK_LIGHT :: DISK_LIGHT :: DISK_DARK ::
        DISK_DARK :: (LDb (k'' + 1) ++ [DISK_DARK]))
        = List.replicate 3 DISK_LIGHT ++
            (DISK_DARK :: DISK_DARK ::
              (LDb (k'' + 4 - 1 - 2) ++ List.replicate 1 DISK_DARK)) := by
      rw [show k'' + 4 - 1 - 2 = k'' + 1 by omega]
      simp [List.replicate_succ]
    rw [hform2]
    have hp1 := fwd_phase1 (k'' + 4) k'' 2 (1 + (k'' + 1) + 2)
      (by omega) (by omega)
    rw [show (2 : Nat) - 1 = 1 from rfl] at hp1
    rw [show k'' + 2 + 2 = k'' + 4 by omega,
        show (1 : Nat) + 1 = 2 from rfl, hp1, Prod.mk.injEq, Prod.mk.injEq]
    refine ⟨rfl, rfl, ?_⟩
    have h1 := pcount_tri k''
    have h2 : tri (k'' + 2 + 1) = (k'' + 3) + tri (k'' + 2) := rfl
    rw [show k'' + 4 - 1 = k'' + 3 by omega, show k'' + 3 = k'' + 2 + 1 by omega,
        h2]
    omega

/-- Behaviour of sort_lawnmower on the alternating row of `2k` disks: it
groups the row and performs `tri (k-1)` swaps — the same count as
sort_left_to_right. -/
theorem sort_lawnmower_LDb (k : Nat) (hk : 1 ≤ k) :
    sort_lawnmower (LDb k)
      = some ⟨List.replicate k DISK_LIGHT ++ List.replicate k DISK_DARK,
              tri (k - 1)⟩ := by
  rw [sort_lawnmower, if_pos (is_alternating_LDb k), LDb_light_count,
      LDb_total_count]
  rcases Nat.lt_or_ge k 2 with h1 | h2
  · obtain rfl : k = 1 := by omega
    rw [lawnOuter, if_neg (by norm_num)]
    rfl
  · rw [lawnOuter, if_pos (by omega), show (0 : Nat) + 1 = 1 from rfl,
        fwd_first k h2]
    rw [lawnOuter, if_neg (by omega)]

/-! Further facts used by the claim theorems. -/

theorem is_sorted_LDb_false (k : Nat) (hk : 2 ≤ k) :
    disk_state.is_sorted (LDb k) = false := by
  obtain ⟨k', rfl⟩ : ∃ k', k = k' + 2 := ⟨k - 2, by omega⟩
  rw [disk_state.is_sorted, LDb_light_count]
  cases hall : (List.range (k' + 2)).all fun i =>
      (disk_state.get (LDb (k' + 2)) i == DISK_LIGHT) &&
        (disk_state.get (LDb (k' + 2)) (i + (k' + 2)) == DISK_DARK) with
  | false => rfl
  | true =>
    exfalso
    have h1 := List.all_eq_true.mp hall 1 (by
      rw [List.mem_range]; omega)
    have hg : disk_state.get (LDb (k' + 2)) 1 = DISK_DARK := rfl
    rw [hg] at h1
    simp at h1

theorem is_alternating_grouped_false (k : Nat) (hk : 2 ≤ k) :
    disk_state.is_alternating
      (List.replicate k DISK_LIGHT ++ List.replicate k DISK_DARK) = false := by
  obtain ⟨k', rfl⟩ : ∃ k', k = k' + 2 := ⟨k - 2, by omega⟩
  have hlen : (List.replicate (k' + 2) DISK_LIGHT ++
      List.replicate (k' + 2) DISK_DARK).length / 2 = (k' + 1) + 1 := by
    simp
    omega
  rw [disk_state.is_alternating, hlen, List.range'_succ, List.all_cons]
  have hL : List.replicate (k' + 2) DISK_LIGHT ++ List.replicate (k' + 2) DISK_DARK
      = DISK_LIGHT :: DISK_LIGHT ::
          (List.replicate k' DISK_LIGHT ++ List.replicate (k' + 2) DISK_DARK) := by
    simp [List.replicate_succ]
  have h1 : disk_state.get
      (List.replicate (k' + 2) DISK_LIGHT ++ List.replicate (k' + 2) DISK_DARK)
      (0 + 1) = DISK_LIGHT := by
    rw [hL]; rfl
  rw [h1]
  simp

theorem eqOp_refl (l : disk_state) : disk_state.eqOp l l = true := by
  rw [disk_state.eqOp, List.take_length]
  simp


theorem fwStepT_proj (st : disk_state × Nat × List (disk_state × Nat)) (j : Nat) :
    projT (fwStepT st j) = fwStep (projT st) j := by
  rw [fwStepT, fwStep]
  by_cases h : disk_state.get st.1 j = DISK_DARK ∧
      disk_state.get st.1 (j + 1) = DISK_LIGHT
  · rw [if_pos h, if_pos (show disk_state.get (projT st).1 j = DISK_DARK ∧
      disk_state.get (projT st).1 (j + 1) = DISK_LIGHT from h)]
    rfl
  · rw [if_neg h, if_neg (show ¬(disk_state.get (projT st).1 j = DISK_DARK ∧
      disk_state.get (projT st).1 (j + 1) = DISK_LIGHT) from h)]

theorem bwStepT_proj (st : disk_state × Nat × List (disk_state × Nat)) (j : Nat) :
    projT (bwStepT st j) = bwStep (projT st) j := by
  rw [bwStepT, bwStep]
  by_cases h : disk_state.get st.1 j = DISK_LIGHT ∧
      disk_state.get st.1 (j - 1) = DISK_DARK
  · rw [if_pos h, if_pos (show disk_state.get (projT st).1 j = DISK_LIGHT ∧
      disk_state.get (projT st).1 (j - 1) = DISK_DARK from h)]
    rfl
  · rw [if_neg h, if_neg (show ¬(disk_state.get (projT st).1 j = DISK_LIGHT ∧
      disk_state.get (projT st).1 (j - 1) = DISK_DARK) from h)]

theorem foldl_fwStepT_proj (l : List Nat) :
    ∀ st, projT (l.foldl fwStepT st) = l.foldl fwStep (projT st) := by
  induction l with
  | nil => intro st; rfl
  | cons j t ih =>
    intro st
    rw [List.foldl_cons, List.foldl_cons, ih, fwStepT_proj]

theorem foldl_bwStepT_proj (l : List Nat) :
    ∀ st, projT (l.foldl bwStepT st) = l.foldl bwStep (projT st) := by
  induction l with
  | nil => intro st; rfl
  | cons j t ih =>
    intro st
    rw [List.foldl_cons, List.foldl_cons, ih, bwStepT_proj]

theorem ltrOuterT_proj (lightCount totalCount : Nat)
    (st : disk_state × Nat × List (disk_state × Nat)) :
    projT (ltrOuterT lightCount totalCount st)
      = ltrOuter lightCount totalCount (projT st) := by
  rw [ltrOuterT, ltrOuter]
  induction (List.range lightCount) generalizing st with
  | nil => rfl
  | cons i t ih =>
    rw [List.foldl_cons, List.foldl_cons, ih]
    rw [ltrPassT, ltrPass, foldl_fwStepT_proj]

theorem fwdLoopT_proj (totalCount i j : Nat)
    (st : disk_state × Nat × List (disk_state × Nat)) :
    (fwdLoopT totalCount i j st).1 = (fwdLoop totalCount i j (projT st)).1 ∧
      projT (fwdLoopT totalCount i j st).2
        = (fwdLoop totalCount i j (projT st)).2 := by
  rw [fwdLoopT, fwdLoop]
  split
  · have hb : projT (backSweepT (i + 1) totalCount (fwStepT st j))
        = backSweep (i + 1) totalCount (fwStep (projT st) j) := by
      rw [backSweepT, backSweep, foldl_bwStepT_proj, fwStepT_proj]
    have h := fwdLoopT_proj totalCount (i + 1) (j + 1)
      (backSweepT (i + 1) totalCount (fwStepT st j))
    rw [hb] at h
    exact h
  · exact ⟨rfl, rfl⟩
termination_by totalCount - i - j
decreasing_by omega

theorem lawnOuterT_proj (lightCount totalCount i : Nat)
    (st : disk_state × Nat × List (disk_state × Nat)) :
    projT (lawnOuterT lightCount totalCount i st)
      = lawnOuter lightCount totalCount i (projT st) := by
  rw [lawnOuterT, lawnOuter]
  split
  · have h := fwdLoopT_proj totalCount i (i + 1) st
    have hrec := lawnOuterT_proj lightCount totalCount
      ((fwdLoopT totalCount i (i + 1) st).1 + 1)
      (fwdLoopT totalCount i (i + 1) st).2
    rw [hrec, h.1, h.2]
  · rfl
termination_by lightCount / 2 - i
decreasing_by
  have h := fwdLoopT_fst_ge totalCount i (i + 1) st
  omega


theorem fwStepT_DL (st : disk_state × Nat × List (disk_state × Nat)) (j : Nat)
    (h : DLok st.2.2) : DLok (fwStepT st j).2.2 := by
  rw [fwStepT]
  split
  · rename_i hcond
    intro p hp
    rcases List.mem_cons.mp hp with hp1 | hp2
    · rw [hp1]
      exact hcond
    · exact h p hp2
  · exact h

theorem bwStepT_DL (st : disk_state × Nat × List (disk_state × Nat)) (j : Nat)
    (hj : 1 ≤ j) (h : DLok st.2.2) : DLok (bwStepT st j).2.2 := by
  rw [bwStepT]
  split
  · rename_i hcond
    intro p hp
    rcases List.mem_cons.mp hp with hp1 | hp2
    · rw [hp1]
      refine ⟨hcond.2, ?_⟩
      rw [show j - 1 + 1 = j by omega]
      exact hcond.1
    · exact h p hp2
  · exact h

theorem foldl_fwStepT_DL (l : List Nat) :
    ∀ st, DLok st.2.2 → DLok ((l.foldl fwStepT st).2.2) := by
  induction l with
  | nil => intro st h; exact h
  | cons j t ih =>
    intro st h
    rw [List.foldl_cons]
    exact ih _ (fwStepT_DL st j h)

theorem foldl_bwStepT_DL (l : List Nat) :
    ∀ st, (∀ j ∈ l, 1 ≤ j) → DLok st.2.2 → DLok ((l.foldl bwStepT st).2.2) := by
  induction l with
  | nil => intro st _ h; exact h
  | cons j t ih =>
    intro st hmem h
    rw [List.foldl_cons]
    exact ih _ (fun x hx => hmem x (by simp [hx]))
      (bwStepT_DL st j (hmem j (by simp)) h)

theorem ltrOuterT_DL (lightCount totalCount : Nat)
    (st : disk_state × Nat × List (disk_state × Nat)) (h : DLok st.2.2) :
    DLok ((ltrOuterT lightCount totalCount st).2.2) := by
  rw [ltrOuterT]
  induction (List.range lightCount) generalizing st with
  | nil => exact h
  | cons i t ih =>
    rw [List.foldl_cons]
    exact ih _ (by rw [ltrPassT]; exact foldl_fwStepT_DL _ _ h)

theorem backSweepT_DL (i totalCount : Nat)
    (st : disk_state × Nat × List (disk_state × Nat)) (h : DLok st.2.2) :
    DLok ((backSweepT i totalCount st).2.2) := by
  rw [backSweepT]
  apply foldl_bwStepT_DL _ _ _ h
  intro j hj
  rw [List.mem_reverse, List.mem_range'_1] at hj
  omega

theorem fwdLoopT_DL (totalCount i j : Nat)
    (st : disk_state × Nat × List (disk_state × Nat)) (h : DLok st.2.2) :
    DLok ((fwdLoopT totalCount i j st).2.2.2) := by
  rw [fwdLoopT]
  split
  · exact fwdLoopT_DL totalCount (i + 1) (j + 1) _
      (backSweepT_DL _ _ _ (fwStepT_DL st j h))
  · exact h
termination_by totalCount - i - j
decreasing_by omega

theorem lawnOuterT_DL (lightCount totalCount i : Nat)
    (st : disk_state × Nat × List (disk_state × Nat)) (h : DLok st.2.2) :
    DLok ((lawnOuterT lightCount totalCount i st).2.2) := by
  rw [lawnOuterT]
  split
  · exact lawnOuterT_DL lightCount totalCount _ _
      (fwdLoopT_DL totalCount i (i + 1) st h)
  · exact h
termination_by lightCount / 2 - i
decreasing_by
  have hge := fwdLoopT_fst_ge totalCount i (i + 1) st
  omega

theorem sort_left_to_right_traced_spec (before : disk_state) :
    DLok (sort_left_to_right_traced before).2 ∧
      (sort_left_to_right_traced before).1 = sort_left_to_right before := by
  rw [sort_left_to_right_traced, sort_left_to_right]
  by_cases h : disk_state.is_alternating before = true
  · rw [if_pos h, if_pos h]
    constructor
    · exact ltrOuterT_DL _ _ (before, 0, []) (by intro p hp; simp at hp)
    · have hp := ltrOuterT_proj (disk_state.light_count before)
        (disk_state.total_count before) (before, 0, [])
      have h1 : (ltrOuterT (disk_state.light_count before)
          (disk_state.total_count before) (before, 0, [])).1
          = (ltrOuter (disk_state.light_count before)
              (disk_state.total_count before) (before, 0)).1 :=
        congrArg Prod.fst hp
      have h2 : (ltrOuterT (disk_state.light_count before)
          (disk_state.total_count before) (before, 0, [])).2.1
          = (ltrOuter (disk_state.light_count before)
              (disk_state.total_count before) (before, 0)).2 :=
        congrArg Prod.snd hp
      rw [h1, h2]
  · rw [if_neg h, if_neg h]
    exact ⟨by intro p hp; simp at hp, rfl⟩

theorem sort_lawnmower_traced_spec (before : disk_state) :
    DLok (sort_lawnmower_traced before).2 ∧
      (sort_lawnmower_traced before).1 = sort_lawnmower before := by
  rw [sort_lawnmower_traced, sort_lawnmower]
  by_cases h : disk_state.is_alternating before = true
  · rw [if_pos h, if_pos h]
    constructor
    · exact lawnOuterT_DL _ _ 0 (before, 0, []) (by intro p hp; simp at hp)
    · have hp := lawnOuterT_proj (disk_state.light_count before)
        (disk_state.total_count before) 0 (before, 0, [])
      have h1 : (lawnOuterT (disk_state.light_count before)
          (disk_state.total_count before) 0 (before, 0, [])).1
          = (lawnOuter (disk_state.light_count before)
              (disk_state.total_count before) 0 (before, 0)).1 :=
        congrArg Prod.fst hp
      have h2 : (lawnOuterT (disk_state.light_count before)
          (disk_state.total_count before) 0 (before, 0, [])).2.1
          = (lawnOuter (disk_state.light_count before)
              (disk_state.total_count before) 0 (before, 0)).2 :=
        congrArg Prod.snd hp
      rw [h1, h2]
  · rw [if_neg h, if_neg h]
    exact ⟨by intro p hp; simp at hp, rfl⟩

/-! ### The claims -/

/-- C1: for every Row satisfying `is_alternating()` (Rows have positive
even length by the data model's invariant), both `sort_left_to_right` and
`sort_lawnmower` return a Result whose Row satisfies `is_sorted() == true`. -/
theorem C1_sorters_group_alternating_rows :
    ∀ (k : Nat) (l : disk_state), 1 ≤ k → l.length = 2 * k →
      disk_state.is_alternating l = true →
      ∃ r1 r2, sort_left_to_right l = some r1 ∧ sort_lawnmower l = some r2 ∧
        disk_state.is_sorted (sorted_disks.after r1) = true ∧
        disk_state.is_sorted (sorted_disks.after r2) = true := by
  intro k l hk hlen halt
  obtain rfl := alt_char k l hlen halt
  refine ⟨_, _, sort_left_to_right_LDb k hk, sort_lawnmower_LDb k hk, ?_, ?_⟩
  · exact is_sorted_grouped k
  · exact is_sorted_grouped k

theorem C1_witness :
    ∃ r1 r2, sort_left_to_right (LDb 3) = some r1 ∧
      sort_lawnmower (LDb 3) = some r2 ∧
      disk_state.is_sorted (sorted_disks.after r1) = true ∧
      disk_state.is_sorted (sorted_disks.after r2) = true :=
  C1_sorters_group_alternating_rows 3 (LDb 3) (by decide) (by decide) (by decide)

/-- C2 (counterexample): on the alternating row of 8 disks the embedded
`sort_lawnmower` does not equal the spec's section 4.3 reference algorithm:
the code groups the row in 6 swaps while the reference produces the
ungrouped row `L L L D L D D D` with 5 swaps. -/
theorem C2_counterexample :
    disk_state.is_alternating (disk_state.init 4) = true ∧
      sort_lawnmower (disk_state.init 4) ≠ lawnmower_ref (disk_state.init 4) := by
  constructor
  · rw [init_eq_LDb]
    exact is_alternating_LDb 4
  · rw [init_eq_LDb, sort_lawnmower_LDb 4 (by omega)]
    decide

/-- C2 (amended): `sort_lawnmower` agrees with the spec's section 4.3
reference step structure on every alternating Row of size at most 6
(`k ≤ 3`); from `k = 4` on the two differ. -/
theorem C2_amended_agreement :
    ∀ (k : Nat) (l : disk_state), 1 ≤ k → k ≤ 3 → l.length = 2 * k →
      disk_state.is_alternating l = true →
      sort_lawnmower l = lawnmower_ref l := by
  intro k l hk hk3 hlen halt
  obtain rfl := alt_char k l hlen halt
  interval_cases k
  · rw [sort_lawnmower_LDb 1 (by omega)]
    decide
  · rw [sort_lawnmower_LDb 2 (by omega)]
    decide
  · rw [sort_lawnmower_LDb 3 (by omega)]
    decide

theorem C2_amended_witness :
    sort_lawnmower (LDb 3) = lawnmower_ref (LDb 3) :=
  C2_amended_agreement 3 (LDb 3) (by decide) (by decide) (by decide) (by decide)

/-- C3: for every `k ≥ 1`, the two sorters report equal swap counts on the
alternating row of `2k` disks (both perform `tri (k-1) = k(k-1)/2` swaps). -/
theorem C3_equal_swap_counts :
    ∀ k : Nat, 1 ≤ k →
      ∃ r1 r2, sort_left_to_right (disk_state.init k) = some r1 ∧
        sort_lawnmower (disk_state.init k) = some r2 ∧
        sorted_disks.swap_count r1 = sorted_disks.swap_count r2 := by
  intro k hk
  rw [init_eq_LDb]
  exact ⟨_, _, sort_left_to_right_LDb k hk, sort_lawnmower_LDb k hk, rfl⟩

theorem C3_witness :
    ∃ r1 r2, sort_left_to_right (disk_state.init 5) = some r1 ∧
      sort_lawnmower (disk_state.init 5) = some r2 ∧
      sorted_disks.swap_count r1 = sorted_disks.swap_count r2 :=
  C3_equal_swap_counts 5 (by decide)

/-- C4 (counterexample): at `k = 1` the constructor's row `L D` is already
grouped, so `is_sorted()` is `true`, not `false` as the claim states for
every `k ≥ 1`. -/
theorem C4_counterexample :
    1 ≤ 1 ∧ disk_state.total_count (disk_state.init 1) = 2 * 1 ∧
      disk_state.is_alternating (disk_state.init 1) = true ∧
      disk_state.is_sorted (disk_state.init 1) = true := by
  decide

/-- C4 (amended): for every `k ≥ 1` the constructed Row has
`total_count() == 2k` and `is_alternating() == true`, and for `k ≥ 2` it
additionally has `is_sorted() == false` (at `k = 1` the alternating row is
already grouped). -/
theorem C4_amended_constructor :
    ∀ k : Nat, 1 ≤ k →
      disk_state.total_count (disk_state.init k) = 2 * k ∧
      disk_state.is_alternating (disk_state.init k) = true ∧
      (2 ≤ k → disk_state.is_sorted (disk_state.init k) = false) := by
  intro k _
  rw [init_eq_LDb]
  exact ⟨LDb_total_count k, is_alternating_LDb k,
    fun h2 => is_sorted_LDb_false k h2⟩

theorem C4_amended_witness :
    disk_state.total_count (disk_state.init 2) = 2 * 2 ∧
      disk_state.is_alternating (disk_state.init 2) = true ∧
      (2 ≤ 2 → disk_state.is_sorted (disk_state.init 2) = false) :=
  C4_amended_constructor 2 (by decide)

/-- C5 (counterexample): `operator==` compares the left row against the
first `size()` elements of the right row (`std::equal` with three
iterators), so the 2-disk row `L D` compares equal to the 4-disk row
`L D L D` although the sequences differ. -/
theorem C5_counterexample :
    disk_state.eqOp [DISK_LIGHT, DISK_DARK]
        [DISK_LIGHT, DISK_DARK, DISK_LIGHT, DISK_DARK] = true ∧
      ([DISK_LIGHT, DISK_DARK] : disk_state)
        ≠ [DISK_LIGHT, DISK_DARK, DISK_LIGHT, DISK_DARK] := by
  decide

/-- C5 (amended): for Rows of equal length, `operator==` holds exactly when
the token sequences are identical; a Row also compares equal to any longer
Row it is a prefix of, so differing lengths do not force inequality. -/
theorem C5_amended_equality :
    ∀ s rhs : disk_state, s.length = rhs.length →
      (disk_state.eqOp s rhs = true ↔ s = rhs) := by
  intro s rhs h
  rw [disk_state.eqOp, h, List.take_length]
  simp

theorem C5_amended_witness :
    disk_state.eqOp [DISK_LIGHT] [DISK_DARK] = true ↔
      ([DISK_LIGHT] : disk_state) = [DISK_DARK] :=
  C5_amended_equality [DISK_LIGHT] [DISK_DARK] rfl

/-- C6: the spec's example outputs hold for both sorters: `k = 1` gives
swap count 0 and row "L D"; `k = 3` gives 3 and "L L L D D D"; `k = 4`
gives 6 and "L L L L D D D D". -/
theorem C6_spec_examples :
    sort_left_to_right (disk_state.init 1)
        = some ⟨[DISK_LIGHT, DISK_DARK], 0⟩ ∧
      sort_lawnmower (disk_state.init 1)
        = some ⟨[DISK_LIGHT, DISK_DARK], 0⟩ ∧
      disk_state.to_string [DISK_LIGHT, DISK_DARK] = "L D" ∧
      sort_left_to_right (disk_state.init 3)
        = some ⟨[DISK_LIGHT, DISK_LIGHT, DISK_LIGHT,
                 DISK_DARK, DISK_DARK, DISK_DARK], 3⟩ ∧
      sort_lawnmower (disk_state.init 3)
        = some ⟨[DISK_LIGHT, DISK_LIGHT, DISK_LIGHT,
                 DISK_DARK, DISK_DARK, DISK_DARK], 3⟩ ∧
      disk_state.to_string [DISK_LIGHT, DISK_LIGHT, DISK_LIGHT,
        DISK_DARK, DISK_DARK, DISK_DARK] = "L L L D D D" ∧
      sort_left_to_right (disk_state.init 4)
        = some ⟨[DISK_LIGHT, DISK_LIGHT, DISK_LIGHT, DISK_LIGHT,
                 DISK_DARK, DISK_DARK, DISK_DARK, DISK_DARK], 6⟩ ∧
      sort_lawnmower (disk_state.init 4)
        = some ⟨[DISK_LIGHT, DISK_LIGHT, DISK_LIGHT, DISK_LIGHT,
                 DISK_DARK, DISK_DARK, DISK_DARK, DISK_DARK], 6⟩ ∧
      disk_state.to_string [DISK_LIGHT, DISK_LIGHT, DISK_LIGHT, DISK_LIGHT,
        DISK_DARK, DISK_DARK, DISK_DARK, DISK_DARK] = "L L L L D D D D" := by
  refine ⟨by decide, ?_, by decide, by decide, ?_, by decide, by decide, ?_,
    by decide⟩
  · rw [init_eq_LDb, sort_lawnmower_LDb 1 (by omega)]
    decide
  · rw [init_eq_LDb, sort_lawnmower_LDb 3 (by omega)]
    decide
  · rw [init_eq_LDb, sort_lawnmower_LDb 4 (by omega)]
    decide

/-- C7 (counterexample): at `k = 1` the sorter's grouped output `L D` is
still alternating, so a second invocation of either sorter passes the
precondition assertion and produces a Result instead of failing fast. -/
theorem C7_counterexample :
    sort_left_to_right (disk_state.init 1)
        = some ⟨[DISK_LIGHT, DISK_DARK], 0⟩ ∧
      disk_state.is_sorted [DISK_LIGHT, DISK_DARK] = true ∧
      sort_left_to_right [DISK_LIGHT, DISK_DARK]
        = some ⟨[DISK_LIGHT, DISK_DARK], 0⟩ ∧
      sort_lawnmower [DISK_LIGHT, DISK_DARK]
        = some ⟨[DISK_LIGHT, DISK_DARK], 0⟩ := by
  refine ⟨by decide, by decide, by decide, ?_⟩
  have h := sort_lawnmower_LDb 1 (by omega)
  exact h

/-- C7 (amended): for `k ≥ 2`, the grouped Row either sorter produces from
the alternating row of `2k` disks is not alternating, so invoking either
sorter on it again fails the precondition assertion and produces no
Result. -/
theorem C7_amended_fail_fast :
    ∀ k : Nat, 2 ≤ k → ∀ r : sorted_disks,
      (sort_left_to_right (disk_state.init k) = some r ∨
        sort_lawnmower (disk_state.init k) = some r) →
      disk_state.is_sorted (sorted_disks.after r) = true ∧
      sort_left_to_right (sorted_disks.after r) = none ∧
      sort_lawnmower (sorted_disks.after r) = none := by
  intro k hk r hr
  have hk1 : 1 ≤ k := by omega
  have hr2 : r = ⟨List.replicate k DISK_LIGHT ++ List.replicate k DISK_DARK,
      tri (k - 1)⟩ := by
    rcases hr with h | h
    · rw [init_eq_LDb, sort_left_to_right_LDb k hk1] at h
      exact (Option.some.inj h).symm
    · rw [init_eq_LDb, sort_lawnmower_LDb k hk1] at h
      exact (Option.some.inj h).symm
  subst hr2
  refine ⟨is_sorted_grouped k, ?_, ?_⟩
  · rw [sort_left_to_right,
        if_neg (by
          simp [sorted_disks.after, is_alternating_grouped_false k hk])]
  · rw [sort_lawnmower,
        if_neg (by
          simp [sorted_disks.after, is_alternating_grouped_false k hk])]

theorem C7_amended_witness :
    disk_state.is_sorted
        (sorted_disks.after ⟨[DISK_LIGHT, DISK_LIGHT, DISK_DARK, DISK_DARK], 1⟩)
        = true ∧
      sort_left_to_right
        (sorted_disks.after ⟨[DISK_LIGHT, DISK_LIGHT, DISK_DARK, DISK_DARK], 1⟩)
        = none ∧
      sort_lawnmower
        (sorted_disks.after ⟨[DISK_LIGHT, DISK_LIGHT, DISK_DARK, DISK_DARK], 1⟩)
        = none :=
  C7_amended_fail_fast 2 (by decide)
    ⟨[DISK_LIGHT, DISK_LIGHT, DISK_DARK, DISK_DARK], 1⟩ (Or.inl (by decide))

/-- C8: on every input, every swap either sorter performs exchanges an
adjacent pair that reads (dark, light) left to right in the row state at
that moment (the instrumented runs record each swap with that state, all
recorded swaps satisfy the (dark, light) condition, and the instrumented
runs compute exactly the sorters' results). -/
theorem C8_only_dark_light_swaps :
    ∀ before : disk_state,
      DLok (sort_left_to_right_traced before).2 ∧
      DLok (sort_lawnmower_traced before).2 ∧
      (sort_left_to_right_traced before).1 = sort_left_to_right before ∧
      (sort_lawnmower_traced before).1 = sort_lawnmower before := by
  intro before
  obtain ⟨h1, h2⟩ := sort_left_to_right_traced_spec before
  obtain ⟨h3, h4⟩ := sort_lawnmower_traced_spec before
  exact ⟨h1, h3, h2, h4⟩

/-- C9: both sorters thread the caller's Row through the loops (the
`const_cast` in-place mutation) and return a Result built from that final
buffer: the Result's Row is the final loop state, and the two are
element-wise equal under `operator==`. -/
theorem C9_in_place_result_row :
    ∀ before : disk_state, disk_state.is_alternating before = true →
      (∃ r1, sort_left_to_right before = some r1 ∧
        sorted_disks.after r1
          = (ltrOuter (disk_state.light_count before)
              (disk_state.total_count before) (before, 0)).1 ∧
        disk_state.eqOp
          ((ltrOuter (disk_state.light_count before)
              (disk_state.total_count before) (before, 0)).1)
          (sorted_disks.after r1) = true) ∧
      (∃ r2, sort_lawnmower before = some r2 ∧
        sorted_disks.after r2
          = (lawnOuter (disk_state.light_count before)
              (disk_state.total_count before) 0 (before, 0)).1 ∧
        disk_state.eqOp
          ((lawnOuter (disk_state.light_count before)
              (disk_state.total_count before) 0 (before, 0)).1)
          (sorted_disks.after r2) = true) := by
  intro before h
  constructor
  · refine ⟨⟨(ltrOuter (disk_state.light_count before)
        (disk_state.total_count before) (before, 0)).1,
      (ltrOuter (disk_state.light_count before)
        (disk_state.total_count before) (before, 0)).2⟩,
      ?_, rfl, eqOp_refl _⟩
    rw [sort_left_to_right, if_pos h]
  · refine ⟨⟨(lawnOuter (disk_state.light_count before)
        (disk_state.total_count before) 0 (before, 0)).1,
      (lawnOuter (disk_state.light_count before)
        (disk_state.total_count before) 0 (before, 0)).2⟩,
      ?_, rfl, eqOp_refl _⟩
    rw [sort_lawnmower, if_pos h]

theorem C9_witness :
    (∃ r1, sort_left_to_right (LDb 2) = some r1 ∧
      sorted_disks.after r1
        = (ltrOuter (disk_state.light_count (LDb 2))
            (disk_state.total_count (LDb 2)) (LDb 2, 0)).1 ∧
      disk_state.eqOp
        ((ltrOuter (disk_state.light_count (LDb 2))
            (disk_state.total_count (LDb 2)) (LDb 2, 0)).1)
        (sorted_disks.after r1) = true) ∧
    (∃ r2, sort_lawnmower (LDb 2) = some r2 ∧
      sorted_disks.after r2
        = (lawnOuter (disk_state.light_count (LDb 2))
            (disk_state.total_count (LDb 2)) 0 (LDb 2, 0)).1 ∧
      disk_state.eqOp
        ((lawnOuter (disk_state.light_count (LDb 2))
            (disk_state.total_count (LDb 2)) 0 (LDb 2, 0)).1)
        (sorted_disks.after r2) = true) :=
  C9_in_place_result_row (LDb 2) (by decide)

/-- C10: `light_count()` and `dark_count()` are computed from the row
length alone (both equal `total_count() / 2`), for every row state
whatsoever, and all three counts are unchanged by every `swap`. -/
theorem C10_counts_from_length_only :
    ∀ (s : disk_state) (i : Nat),
      disk_state.light_count s = disk_state.dark_count s ∧
      disk_state.dark_count s = disk_state.total_count s / 2 ∧
      disk_state.total_count (disk_state.swap s i) = disk_state.total_count s ∧
      disk_state.dark_count (disk_state.swap s i) = disk_state.dark_count s ∧
      disk_state.light_count (disk_state.swap s i) = disk_state.light_count s := by
  intro s i
  have hlen : (disk_state.swap s i).length = s.length := by
    rw [disk_state.swap]
    simp
  refine ⟨rfl, rfl, ?_, ?_, ?_⟩ <;>
    simp [disk_state.total_count, disk_state.dark_count,
      disk_state.light_count, hlen]
